import Mathlib

/-!
Shallow embedding of the Micro-Batcher engine (src/src/batcher.ts).

A `Batcher` accumulates submitted jobs in a queue and dispatches them in
batches to an external processor.  The TypeScript class keeps:
  * `jobQueue`          : an ordered array of `{ job, resolve, reject }` records;
  * `batchSize`         : an optional size trigger (`number | undefined`);
  * `frequencyMs`/timer : an optional recurring time trigger;
  * `shutdownFlag`      : set once by `shutdown`;
  * caller-visible promises, one per submitted job.

The embedding below models one engine instance as a `BatcherState`:
  * each submitted job gets a fresh numeric id (`nextId` counts submissions
    that were accepted), and `futures : Nat → FutureState` records the
    caller-visible promise of every id (pending / resolved / rejected);
  * the external processor together with `Promise.allSettled` is modelled by
    a pure function `proc : List α → List (Outcome ρ ε)` giving the settled
    outcome of each position of a dispatched batch;
  * `processorCalls` logs the argument of every `processor.process(jobs)`
    invocation, in order;
  * asynchronous settlement is collapsed into the dispatching step: a batch's
    outcomes are written to `futures` by the same transition that extracts
    the batch.  Claims about the relative order of settlement and shutdown
    completion are read off the state in which `shutdown` has returned.
-/

namespace MicroBatcher

/-- Settled outcome of one position of a batch, as produced by
`Promise.allSettled` over the processor's returned promises:
`ok` is a fulfilled result, `err` a rejection reason. -/
inductive Outcome (ρ ε : Type) where
  | ok (v : ρ)
  | err (e : ε)
deriving DecidableEq

/-- State of one caller-visible promise returned by `submit`. -/
inductive FutureState (ρ ε : Type) where
  | pending
  | resolved (v : ρ)
  | rejected (e : ε)
deriving DecidableEq

variable {α ρ ε : Type}

/-- Delivering a settled outcome to a caller future:
`fulfilled ⇒ resolve(value)`, otherwise `reject(reason)`
(the `forEach` body of `processBatch`). -/
def settleOutcome : Outcome ρ ε → FutureState ρ ε
  | Outcome.ok v => FutureState.resolved v
  | Outcome.err e => FutureState.rejected e

/-- The mutable fields of one `Batcher` instance.  `jobQueue` pairs each
queued job with the id of its caller future; `timerActive` models ownership
of the `setInterval` handle; `processorCalls` is the log of arguments passed
to `processor.process`. -/
structure BatcherState (α ρ ε : Type) where
  jobQueue : List (Nat × α)
  futures : Nat → FutureState ρ ε
  nextId : Nat
  shutdownFlag : Bool
  timerActive : Bool
  processorCalls : List (List α)

/-- State of a freshly constructed `Batcher`: empty queue, no future created
yet, flag down, timer running iff `frequencyMs` was configured. -/
def initState (timerConfigured : Bool) : BatcherState α ρ ε :=
  { jobQueue := []
    futures := fun _ => FutureState.pending
    nextId := 0
    shutdownFlag := false
    timerActive := timerConfigured
    processorCalls := [] }

/-- `this.jobQueue.splice(0, this.batchSize)` when a size is configured,
`this.jobQueue.splice(0)` otherwise: the part removed as the batch. -/
def extractBatch (bs : Option Nat) (q : List (Nat × α)) : List (Nat × α) :=
  match bs with
  | some b => q.take b
  | none => q

/-- The part of the queue that `splice` leaves behind. -/
def extractRest (bs : Option Nat) (q : List (Nat × α)) : List (Nat × α) :=
  match bs with
  | some b => q.drop b
  | none => []

/-- `results.forEach((result, index) => { const item = batch[index]; if (item) … })`:
walk outcomes and batch entries in lockstep, settling the future of the entry
at each index; positions where either list runs out have no effect (a surplus
outcome meets `batch[index] === undefined` and is skipped; a missing outcome
leaves the entry's future untouched). -/
def settleResults (batch : List (Nat × α)) (results : List (Outcome ρ ε))
    (futures : Nat → FutureState ρ ε) : Nat → FutureState ρ ε :=
  match batch, results with
  | [], _ => futures
  | _ :: _, [] => futures
  | p :: bs, r :: rs =>
      settleResults bs rs (Function.update futures p.1 (settleOutcome r))

/-- `Batcher.processBatch`: no-op on an empty queue; otherwise splice off a
batch, invoke the processor with the batch's jobs (logged in
`processorCalls`), and settle each batch position's future from the outcome
at the same index. -/
def processBatch (proc : List α → List (Outcome ρ ε)) (bs : Option Nat)
    (s : BatcherState α ρ ε) : BatcherState α ρ ε :=
  if s.jobQueue.isEmpty then s
  else
    let batch := extractBatch bs s.jobQueue
    let jobs := batch.map Prod.snd
    { s with
      jobQueue := extractRest bs s.jobQueue
      processorCalls := s.processorCalls ++ [jobs]
      futures := settleResults batch (proc jobs) s.futures }

/-- Result of one `submit` call: either the immediately rejected promise
produced when the shutdown flag is already set, or the id of the freshly
queued caller future. -/
inductive SubmitOutcome where
  | rejectedShutdown (msg : String)
  | queued (id : Nat)
deriving DecidableEq

/-- The message of the error `submit` rejects with after shutdown. -/
def shutdownMessage : String :=
  "Batcher has been shut down, cannot accept new jobs"

/-- `Batcher.submit`: reject immediately when the shutdown flag is set
(state untouched); otherwise append a fresh pending entry to the queue and,
when a size is configured and the queue length has reached it, run
`processBatch` synchronously before returning. -/
def submit (proc : List α → List (Outcome ρ ε)) (bs : Option Nat)
    (s : BatcherState α ρ ε) (job : α) : SubmitOutcome × BatcherState α ρ ε :=
  if s.shutdownFlag then
    (SubmitOutcome.rejectedShutdown shutdownMessage, s)
  else
    let id := s.nextId
    let s1 : BatcherState α ρ ε :=
      { s with
        jobQueue := s.jobQueue ++ [(id, job)]
        nextId := id + 1
        futures := Function.update s.futures id FutureState.pending }
    let s2 :=
      match bs with
      | some b => if b ≤ s1.jobQueue.length then processBatch proc bs s1 else s1
      | none => s1
    (SubmitOutcome.queued id, s2)

/-- Submitting a list of jobs one after the other, no timer tick in between. -/
def submitAll (proc : List α → List (Outcome ρ ε)) (bs : Option Nat)
    (s : BatcherState α ρ ε) (jobs : List α) : BatcherState α ρ ε :=
  jobs.foldl (fun st j => (submit proc bs st j).2) s

/-- `Batcher.processAllBatches`: `while (jobQueue.length > 0) processBatch()`.
The loop is given explicit fuel; it stops early as soon as the queue is
empty, so any fuel at least the number of iterations the source loop makes
yields the source loop's result.  When a configured size makes `processBatch`
remove no element (size 0), no fuel empties the queue — mirroring the fact
that the source loop never terminates there. -/
def processAllBatches (proc : List α → List (Outcome ρ ε)) (bs : Option Nat) :
    Nat → BatcherState α ρ ε → BatcherState α ρ ε
  | 0, s => s
  | fuel + 1, s =>
    if s.jobQueue.isEmpty then s
    else processAllBatches proc bs fuel (processBatch proc bs s)

/-- `Batcher.shutdown`: set the flag, clear the timer, drain the queue, and
return once every batch has settled (the returned state is the one in which
the promise `shutdown` returns has resolved).  The drain loop runs at most
once per queued element whenever each iteration removes at least one
element, so fuel `jobQueue.length` reproduces the source loop exactly in
that case; the degenerate size-0 configuration, where the source loop spins
forever, is treated separately by the termination lemmas. -/
def shutdown (proc : List α → List (Outcome ρ ε)) (bs : Option Nat)
    (s : BatcherState α ρ ε) : BatcherState α ρ ε :=
  let s1 : BatcherState α ρ ε := { s with shutdownFlag := true, timerActive := false }
  processAllBatches proc bs s1.jobQueue.length s1

/-- States reachable from a freshly constructed batcher by the engine's own
transitions: accepted or refused submissions, timer ticks (which call
`processBatch` while the timer is live), and shutdown. -/
inductive Reachable (proc : List α → List (Outcome ρ ε)) (bs : Option Nat)
    (t0 : Bool) : BatcherState α ρ ε → Prop where
  | init : Reachable proc bs t0 (initState t0)
  | submitStep {s : BatcherState α ρ ε} (j : α) :
      Reachable proc bs t0 s → Reachable proc bs t0 (submit proc bs s j).2
  | timerStep {s : BatcherState α ρ ε} :
      Reachable proc bs t0 s → s.timerActive = true →
      Reachable proc bs t0 (processBatch proc bs s)
  | shutdownStep {s : BatcherState α ρ ε} :
      Reachable proc bs t0 s → Reachable proc bs t0 (shutdown proc bs s)

/-- Tag a list of jobs with consecutive ids starting at `n` — the queue
entries created by submitting those jobs in order. -/
def tagFrom (n : Nat) : List α → List (Nat × α)
  | [] => []
  | a :: as => (n, a) :: tagFrom (n + 1) as

/-! ### Basic facts about one `processBatch` step -/

theorem processBatch_of_empty (proc : List α → List (Outcome ρ ε)) (bs : Option Nat)
    (s : BatcherState α ρ ε) (h : s.jobQueue = []) : processBatch proc bs s = s := by
  simp [processBatch, h]

theorem processBatch_shutdownFlag (proc : List α → List (Outcome ρ ε)) (bs : Option Nat)
    (s : BatcherState α ρ ε) : (processBatch proc bs s).shutdownFlag = s.shutdownFlag := by
  unfold processBatch
  split <;> rfl

theorem processBatch_timerActive (proc : List α → List (Outcome ρ ε)) (bs : Option Nat)
    (s : BatcherState α ρ ε) : (processBatch proc bs s).timerActive = s.timerActive := by
  unfold processBatch
  split <;> rfl

theorem processBatch_nextId (proc : List α → List (Outcome ρ ε)) (bs : Option Nat)
    (s : BatcherState α ρ ε) : (processBatch proc bs s).nextId = s.nextId := by
  unfold processBatch
  split <;> rfl

theorem processBatch_length_lt (proc : List α → List (Outcome ρ ε)) (bs : Option Nat)
    (s : BatcherState α ρ ε)
    (hbs : bs = none ∨ ∃ B, bs = some B ∧ 1 ≤ B) (hne : s.jobQueue ≠ []) :
    (processBatch proc bs s).jobQueue.length < s.jobQueue.length := by
  have hlen : 0 < s.jobQueue.length := List.length_pos.mpr hne
  have hempty : s.jobQueue.isEmpty = false := by
    cases hq : s.jobQueue with
    | nil => exact absurd hq hne
    | cons a as => rfl
  rcases hbs with h | ⟨B, hB, hB1⟩
  · simp [processBatch, hempty, extractRest, h]
    exact hlen
  · subst hB
    simp [processBatch, hempty, extractRest]
    omega

/-! ### Basic facts about the drain loop -/

theorem processAllBatches_of_empty (proc : List α → List (Outcome ρ ε)) (bs : Option Nat)
    (fuel : Nat) (s : BatcherState α ρ ε) (h : s.jobQueue = []) :
    processAllBatches proc bs fuel s = s := by
  cases fuel with
  | zero => rfl
  | succ n => simp [processAllBatches, h]

theorem processAllBatches_empties (proc : List α → List (Outcome ρ ε)) (bs : Option Nat)
    (hbs : bs = none ∨ ∃ B, bs = some B ∧ 1 ≤ B) :
    ∀ (fuel : Nat) (s : BatcherState α ρ ε), s.jobQueue.length ≤ fuel →
      (processAllBatches proc bs fuel s).jobQueue = [] := by
  intro fuel
  induction fuel with
  | zero =>
    intro s hs
    have : s.jobQueue = [] := List.length_eq_zero.mp (Nat.le_zero.mp hs)
    simpa [processAllBatches] using this
  | succ n ih =>
    intro s hs
    by_cases hq : s.jobQueue = []
    · simp [processAllBatches, hq]
    · have hempty : s.jobQueue.isEmpty = false := by
        cases hqq : s.jobQueue with
        | nil => exact absurd hqq hq
        | cons a as => rfl
      have hlt := processBatch_length_lt proc bs s hbs hq
      have : (processBatch proc bs s).jobQueue.length ≤ n := by omega
      simpa [processAllBatches, hempty] using ih (processBatch proc bs s) this

theorem processAllBatches_shutdownFlag (proc : List α → List (Outcome ρ ε)) (bs : Option Nat) :
    ∀ (fuel : Nat) (s : BatcherState α ρ ε),
      (processAllBatches proc bs fuel s).shutdownFlag = s.shutdownFlag := by
  intro fuel
  induction fuel with
  | zero => intro s; rfl
  | succ n ih =>
    intro s
    by_cases hq : s.jobQueue.isEmpty
    · simp [processAllBatches, hq]
    · simp only [processAllBatches]
      rw [if_neg hq, ih, processBatch_shutdownFlag]

theorem processAllBatches_timerActive (proc : List α → List (Outcome ρ ε)) (bs : Option Nat) :
    ∀ (fuel : Nat) (s : BatcherState α ρ ε),
      (processAllBatches proc bs fuel s).timerActive = s.timerActive := by
  intro fuel
  induction fuel with
  | zero => intro s; rfl
  | succ n ih =>
    intro s
    by_cases hq : s.jobQueue.isEmpty
    · simp [processAllBatches, hq]
    · simp only [processAllBatches]
      rw [if_neg hq, ih, processBatch_timerActive]

theorem processAllBatches_nextId (proc : List α → List (Outcome ρ ε)) (bs : Option Nat) :
    ∀ (fuel : Nat) (s : BatcherState α ρ ε),
      (processAllBatches proc bs fuel s).nextId = s.nextId := by
  intro fuel
  induction fuel with
  | zero => intro s; rfl
  | succ n ih =>
    intro s
    by_cases hq : s.jobQueue.isEmpty
    · simp [processAllBatches, hq]
    · simp only [processAllBatches]
      rw [if_neg hq, ih, processBatch_nextId]

/-! ### Facts about positional settlement -/

theorem settleOutcome_ne_pending (r : Outcome ρ ε) :
    settleOutcome r ≠ (FutureState.pending : FutureState ρ ε) := by
  cases r <;> simp [settleOutcome]

/-- A future is only ever written with a settled value: the settlement pass
either leaves an id's future alone or leaves it settled. -/
theorem settleResults_eq_or_settled (batch : List (Nat × α)) (results : List (Outcome ρ ε))
    (futures : Nat → FutureState ρ ε) (id : Nat) :
    settleResults batch results futures id = futures id ∨
      settleResults batch results futures id ≠ FutureState.pending := by
  induction batch generalizing results futures with
  | nil => exact Or.inl rfl
  | cons p bs ih =>
    cases results with
    | nil => exact Or.inl rfl
    | cons r rs =>
      rcases ih rs (Function.update futures p.1 (settleOutcome r)) with h | h
      · by_cases hid : id = p.1
        · subst hid
          rw [settleResults, h, Function.update_same]
          exact Or.inr (settleOutcome_ne_pending r)
        · rw [settleResults, h, Function.update_noteq hid]
          exact Or.inl rfl
      · exact Or.inr h

theorem settleResults_ne_pending (batch : List (Nat × α)) (results : List (Outcome ρ ε))
    (futures : Nat → FutureState ρ ε) (id : Nat) (h : futures id ≠ FutureState.pending) :
    settleResults batch results futures id ≠ FutureState.pending := by
  rcases settleResults_eq_or_settled batch results futures id with heq | hne
  · rw [heq]; exact h
  · exact hne

/-- When the outcomes cover the whole batch, every batch entry's future ends
up settled. -/
theorem settleResults_covers (batch : List (Nat × α)) (results : List (Outcome ρ ε))
    (futures : Nat → FutureState ρ ε) (hlen : batch.length ≤ results.length) :
    ∀ p ∈ batch, settleResults batch results futures p.1 ≠ FutureState.pending := by
  induction batch generalizing results futures with
  | nil => intro p hp; cases hp
  | cons q bs ih =>
    cases results with
    | nil => simp at hlen
    | cons r rs =>
      intro p hp
      have hlen2 : bs.length ≤ rs.length := by simpa using hlen
      rcases List.mem_cons.mp hp with hpq | hpbs
      · subst hpq
        rcases settleResults_eq_or_settled bs rs
            (Function.update futures p.1 (settleOutcome r)) p.1 with h | h
        · rw [settleResults, h, Function.update_same]
          exact settleOutcome_ne_pending r
        · exact h
      · exact ih rs (Function.update futures q.1 (settleOutcome r)) hlen2 p hpbs

/-- Ids that are not in the batch keep their future untouched. -/
theorem settleResults_not_mem (batch : List (Nat × α)) (results : List (Outcome ρ ε))
    (futures : Nat → FutureState ρ ε) (id : Nat) (h : id ∉ batch.map Prod.fst) :
    settleResults batch results futures id = futures id := by
  induction batch generalizing results futures with
  | nil => rfl
  | cons p bs ih =>
    cases results with
    | nil => rfl
    | cons r rs =>
      have hid : id ≠ p.1 := by
        intro hid
        exact h (by simp [hid])
      have hbs : id ∉ bs.map Prod.fst := by
        intro hm
        exact h (by simp [List.mem_cons]; right; simpa using hm)
      rw [settleResults, ih rs _ hbs, Function.update_noteq hid]

/-- With distinct ids, the future of the entry at position `i` is settled
exactly from the outcome at position `i` — no other position influences it. -/
theorem settleResults_get (batch : List (Nat × α)) (results : List (Outcome ρ ε))
    (futures : Nat → FutureState ρ ε) (hnodup : (batch.map Prod.fst).Nodup)
    (i : Nat) (p : Nat × α) (r : Outcome ρ ε)
    (hp : batch.get? i = some p) (hr : results.get? i = some r) :
    settleResults batch results futures p.1 = settleOutcome r := by
  induction i generalizing batch results futures with
  | zero =>
    cases batch with
    | nil => simp at hp
    | cons q bs =>
      cases results with
      | nil => simp at hr
      | cons r0 rs =>
        have hq : q = p := by simpa using hp
        have hr0 : r0 = r := by simpa using hr
        subst hq; subst hr0
        rw [List.map_cons] at hnodup
        have hnot : q.1 ∉ bs.map Prod.fst := (List.nodup_cons.mp hnodup).1
        rw [settleResults, settleResults_not_mem bs rs _ q.1 hnot, Function.update_same]
  | succ n ih =>
    cases batch with
    | nil => simp at hp
    | cons q bs =>
      cases results with
      | nil => simp at hr
      | cons r0 rs =>
        rw [List.map_cons] at hnodup
        have hnodup2 : (bs.map Prod.fst).Nodup := (List.nodup_cons.mp hnodup).2
        exact ih bs rs _ hnodup2 (by simpa using hp) (by simpa using hr)

/-! ### The bookkeeping invariant: every accepted submission is either still
queued or already settled -/

/-- Every id handed out by `submit` is accounted for: its entry is still in
the queue, or its caller future has already been settled.  This is the state
analogue of "no job is lost": the real engine additionally holds jobs in
in-flight batches, which the embedding settles at dispatch time. -/
def AllTracked (s : BatcherState α ρ ε) : Prop :=
  ∀ id, id < s.nextId →
    (∃ j, (id, j) ∈ s.jobQueue) ∨ s.futures id ≠ FutureState.pending

theorem extractBatch_append_rest (bs : Option Nat) (q : List (Nat × α)) :
    extractBatch bs q ++ extractRest bs q = q := by
  cases bs with
  | none => simp [extractBatch, extractRest]
  | some b => simp [extractBatch, extractRest]

theorem processBatch_tracked (proc : List α → List (Outcome ρ ε)) (bs : Option Nat)
    (s : BatcherState α ρ ε) (hproc : ∀ l, (proc l).length = l.length)
    (hs : AllTracked s) : AllTracked (processBatch proc bs s) := by
  by_cases hq : s.jobQueue.isEmpty
  · simpa [processBatch, hq] using hs
  · intro id hid
    rw [processBatch_nextId] at hid
    rcases hs id hid with ⟨j, hj⟩ | hsettled
    · have hsplit := extractBatch_append_rest bs s.jobQueue
      have hmem : (id, j) ∈ extractBatch bs s.jobQueue ++ extractRest bs s.jobQueue := by
        rw [hsplit]; exact hj
      rcases List.mem_append.mp hmem with hbatch | hrest
      · right
        have hlen : (extractBatch bs s.jobQueue).length ≤
            (proc ((extractBatch bs s.jobQueue).map Prod.snd)).length := by
          rw [hproc, List.length_map]
        have := settleResults_covers (extractBatch bs s.jobQueue)
          (proc ((extractBatch bs s.jobQueue).map Prod.snd)) s.futures hlen (id, j) hbatch
        simpa [processBatch, hq] using this
      · left
        exact ⟨j, by simpa [processBatch, hq] using hrest⟩
    · right
      have := settleResults_ne_pending (extractBatch bs s.jobQueue)
        (proc ((extractBatch bs s.jobQueue).map Prod.snd)) s.futures id hsettled
      simpa [processBatch, hq] using this

theorem submit_tracked (proc : List α → List (Outcome ρ ε)) (bs : Option Nat)
    (s : BatcherState α ρ ε) (j : α) (hproc : ∀ l, (proc l).length = l.length)
    (hs : AllTracked s) : AllTracked (submit proc bs s j).2 := by
  by_cases hflag : s.shutdownFlag
  · simpa [submit, hflag] using hs
  · have h1 : AllTracked
        ({ s with
            jobQueue := s.jobQueue ++ [(s.nextId, j)]
            nextId := s.nextId + 1
            futures := Function.update s.futures s.nextId FutureState.pending } :
          BatcherState α ρ ε) := by
      intro id hid
      simp only at hid
      by_cases hide : id = s.nextId
      · subst hide
        exact Or.inl ⟨j, by simp⟩
      · have hlt : id < s.nextId := by omega
        rcases hs id hlt with ⟨j0, hj0⟩ | hsettled
        · exact Or.inl ⟨j0, by simp [hj0]⟩
        · right
          simpa [Function.update_noteq hide] using hsettled
    cases bs with
    | none => simpa [submit, hflag] using h1
    | some b =>
      by_cases hb : b ≤ s.jobQueue.length + 1
      · have := processBatch_tracked proc (some b) _ hproc h1
        simpa [submit, hflag, hb] using this
      · simpa [submit, hflag, hb] using h1

theorem processAllBatches_tracked (proc : List α → List (Outcome ρ ε)) (bs : Option Nat)
    (hproc : ∀ l, (proc l).length = l.length) :
    ∀ (fuel : Nat) (s : BatcherState α ρ ε), AllTracked s →
      AllTracked (processAllBatches proc bs fuel s) := by
  intro fuel
  induction fuel with
  | zero => intro s hs; exact hs
  | succ n ih =>
    intro s hs
    by_cases hq : s.jobQueue.isEmpty
    · simpa [processAllBatches, hq] using hs
    · simp only [processAllBatches]
      rw [if_neg hq]
      exact ih _ (processBatch_tracked proc bs s hproc hs)

theorem shutdown_tracked (proc : List α → List (Outcome ρ ε)) (bs : Option Nat)
    (s : BatcherState α ρ ε) (hproc : ∀ l, (proc l).length = l.length)
    (hs : AllTracked s) : AllTracked (shutdown proc bs s) := by
  unfold shutdown
  apply processAllBatches_tracked proc bs hproc
  intro id hid
  exact hs id hid

theorem reachable_tracked (proc : List α → List (Outcome ρ ε)) (bs : Option Nat)
    (t0 : Bool) (s : BatcherState α ρ ε) (hproc : ∀ l, (proc l).length = l.length)
    (hs : Reachable proc bs t0 s) : AllTracked s := by
  induction hs with
  | init => intro id hid; simp [initState] at hid
  | submitStep j hr ih => exact submit_tracked proc bs _ j hproc ih
  | timerStep hr ht ih => exact processBatch_tracked proc bs _ hproc ih
  | shutdownStep hr ih => exact shutdown_tracked proc bs _ hproc ih

/-! ### The shape of the queue and of the processor-call log during a run of
size-triggered submissions -/

theorem tagFrom_map_snd (n : Nat) (l : List α) : (tagFrom n l).map Prod.snd = l := by
  induction l generalizing n with
  | nil => rfl
  | cons a as ih => simp [tagFrom, ih]

theorem tagFrom_length (n : Nat) (l : List α) : (tagFrom n l).length = l.length := by
  induction l generalizing n with
  | nil => rfl
  | cons a as ih => simp [tagFrom, ih]

theorem submitAll_append_eq (proc : List α → List (Outcome ρ ε)) (bs : Option Nat)
    (s : BatcherState α ρ ε) (l1 l2 : List α) :
    submitAll proc bs s (l1 ++ l2) = submitAll proc bs (submitAll proc bs s l1) l2 :=
  List.foldl_append _ _ l1 l2

/-- A single accepted submission that leaves the queue strictly below the
configured size only appends: no batch is cut. -/
theorem submit_no_trigger (proc : List α → List (Outcome ρ ε)) (B : Nat)
    (s : BatcherState α ρ ε) (a : α)
    (hflag : s.shutdownFlag = false) (hlen : s.jobQueue.length + 1 < B) :
    (submit proc (some B) s a).2 =
      ({ s with
          jobQueue := s.jobQueue ++ [(s.nextId, a)]
          nextId := s.nextId + 1
          futures := Function.update s.futures s.nextId FutureState.pending } :
        BatcherState α ρ ε) := by
  have hno : ¬ B ≤ s.jobQueue.length + 1 := by omega
  simp [submit, hflag, hno]

/-- While the queue stays strictly below the configured size, submissions
only append: no batch is cut. -/
theorem submitAll_under_size (proc : List α → List (Outcome ρ ε)) (B : Nat) :
    ∀ (l : List α) (s : BatcherState α ρ ε),
      s.shutdownFlag = false → s.jobQueue.length + l.length < B →
      (submitAll proc (some B) s l).jobQueue = s.jobQueue ++ tagFrom s.nextId l ∧
      (submitAll proc (some B) s l).processorCalls = s.processorCalls ∧
      (submitAll proc (some B) s l).nextId = s.nextId + l.length ∧
      (submitAll proc (some B) s l).shutdownFlag = false ∧
      (submitAll proc (some B) s l).timerActive = s.timerActive := by
  intro l
  induction l with
  | nil =>
    intro s hflag hlen
    exact ⟨by simp [submitAll, tagFrom], rfl, by simp [submitAll], hflag, rfl⟩
  | cons a as ih =>
    intro s hflag hlen
    have hlen0 : s.jobQueue.length + (a :: as).length = s.jobQueue.length + 1 + as.length := by
      simp only [List.length_cons]
      omega
    rw [hlen0] at hlen
    have hstep := submit_no_trigger proc B s a hflag (by omega)
    have hsub : submitAll proc (some B) s (a :: as)
        = submitAll proc (some B) (submit proc (some B) s a).2 as := rfl
    rw [hsub, hstep]
    have hlen2 : (({ s with
        jobQueue := s.jobQueue ++ [(s.nextId, a)]
        nextId := s.nextId + 1
        futures := Function.update s.futures s.nextId FutureState.pending } :
      BatcherState α ρ ε)).jobQueue.length + as.length < B := by
      simp only [List.length_append, List.length_cons, List.length_nil]
      omega
    obtain ⟨hq2, hc2, hn2, hf2, ht2⟩ := ih
      ({ s with
          jobQueue := s.jobQueue ++ [(s.nextId, a)]
          nextId := s.nextId + 1
          futures := Function.update s.futures s.nextId FutureState.pending } :
        BatcherState α ρ ε)
      hflag hlen2
    refine ⟨?_, hc2, ?_, hf2, ht2⟩
    · rw [hq2]
      simp [tagFrom, List.append_assoc]
    · rw [hn2]
      simp only [List.length_cons]
      omega

/-- Submitting exactly `B` jobs into an empty queue fills it up and cuts
exactly one full batch, leaving the queue empty again. -/
theorem submitAll_exact_fill (proc : List α → List (Outcome ρ ε)) (B : Nat) (hB : 1 ≤ B)
    (l : List α) (hl : l.length = B) (s : BatcherState α ρ ε)
    (hq : s.jobQueue = []) (hflag : s.shutdownFlag = false) :
    (submitAll proc (some B) s l).jobQueue = [] ∧
    (submitAll proc (some B) s l).processorCalls = s.processorCalls ++ [l] ∧
    (submitAll proc (some B) s l).nextId = s.nextId + B ∧
    (submitAll proc (some B) s l).shutdownFlag = false ∧
    (submitAll proc (some B) s l).timerActive = s.timerActive := by
  have hsplit : l = l.take (B - 1) ++ l.drop (B - 1) := (List.take_append_drop (B - 1) l).symm
  have htake_len : (l.take (B - 1)).length = B - 1 := by
    rw [List.length_take]; omega
  have hdrop_len : (l.drop (B - 1)).length = 1 := by
    rw [List.length_drop]; omega
  obtain ⟨a, ha⟩ := List.length_eq_one.mp hdrop_len
  obtain ⟨hq1, hc1, hn1, hf1, ht1⟩ :=
    submitAll_under_size proc B (l.take (B - 1)) s hflag (by simp [hq, htake_len]; omega)
  have hcalc : submitAll proc (some B) s l
      = (submit proc (some B) (submitAll proc (some B) s (l.take (B - 1))) a).2 := by
    conv_lhs => rw [hsplit]
    rw [submitAll_append_eq, ha]
    rfl
  set s2 := submitAll proc (some B) s (l.take (B - 1)) with hs2
  have hq2 : s2.jobQueue = tagFrom s.nextId (l.take (B - 1)) := by
    rw [hq1, hq, List.nil_append]
  have hq2len : s2.jobQueue.length = B - 1 := by
    rw [hq2, tagFrom_length, htake_len]
  have htrig : B ≤ (s2.jobQueue ++ [(s2.nextId, a)]).length := by
    simp [hq2len]; omega
  have hqs1len : (s2.jobQueue ++ [(s2.nextId, a)]).length = B := by
    simp [hq2len]; omega
  have hempty : (s2.jobQueue ++ [(s2.nextId, a)]).isEmpty = false := by
    cases h : s2.jobQueue ++ [(s2.nextId, a)] with
    | nil => exact absurd h (by simp)
    | cons x xs => rfl
  have hbatch : extractBatch (some B) (s2.jobQueue ++ [(s2.nextId, a)])
      = s2.jobQueue ++ [(s2.nextId, a)] := by
    simp only [extractBatch]
    exact List.take_of_length_le (by rw [hqs1len])
  have hrest : extractRest (some B) (s2.jobQueue ++ [(s2.nextId, a)]) = [] := by
    simp only [extractRest]
    exact List.drop_eq_nil_of_le (by rw [hqs1len])
  have hjobs : (s2.jobQueue ++ [(s2.nextId, a)]).map Prod.snd = l := by
    rw [hq2, List.map_append, tagFrom_map_snd]
    conv_rhs => rw [hsplit]
    rw [ha]
    rfl
  rw [hcalc]
  simp only [submit, hf1, Bool.false_eq_true, if_false]
  simp only [htrig, if_true]
  constructor
  · simp only [processBatch, hempty, Bool.false_eq_true, if_false, hrest]
  constructor
  · simp only [processBatch, hempty, Bool.false_eq_true, if_false, hbatch, hjobs, hc1]
  constructor
  · rw [processBatch_nextId]
    simp only [hn1, htake_len]
    omega
  constructor
  · rw [processBatch_shutdownFlag]
  · rw [processBatch_timerActive]
    exact ht1

/-- One `processBatch` on a non-empty queue no longer than the configured
size dispatches the entire queue as a single batch. -/
theorem processBatch_small_queue (proc : List α → List (Outcome ρ ε)) (B : Nat)
    (s : BatcherState α ρ ε) (hne : s.jobQueue ≠ []) (hle : s.jobQueue.length ≤ B) :
    (processBatch proc (some B) s).jobQueue = [] ∧
    (processBatch proc (some B) s).processorCalls
      = s.processorCalls ++ [s.jobQueue.map Prod.snd] := by
  have hempty : s.jobQueue.isEmpty = false := by
    cases h : s.jobQueue with
    | nil => exact absurd h hne
    | cons x xs => rfl
  constructor
  · simp only [processBatch, hempty, Bool.false_eq_true, if_false, extractRest]
    exact List.drop_eq_nil_of_le hle
  · simp only [processBatch, hempty, Bool.false_eq_true, if_false, extractBatch]
    rw [List.take_of_length_le hle]

/-- Submitting `N` jobs into an empty queue cuts exactly `⌊N/B⌋` batches
during the submissions themselves: the `i`-th cut batch is the `i`-th
size-`B` slice of the submitted sequence, and the `N mod B` trailing jobs
stay queued with consecutive ids. -/
theorem submitAll_structure (proc : List α → List (Outcome ρ ε)) (B : Nat) (hB : 1 ≤ B) :
    ∀ (n : Nat) (l : List α), l.length = n → ∀ (s : BatcherState α ρ ε),
      s.jobQueue = [] → s.shutdownFlag = false →
      ∃ C : List (List α),
        (submitAll proc (some B) s l).processorCalls = s.processorCalls ++ C ∧
        C.length = l.length / B ∧
        (∀ i, i < l.length / B → C.getD i [] = (l.drop (i * B)).take B) ∧
        (submitAll proc (some B) s l).jobQueue
          = tagFrom (s.nextId + B * (l.length / B)) (l.drop (B * (l.length / B))) ∧
        (submitAll proc (some B) s l).nextId = s.nextId + l.length ∧
        (submitAll proc (some B) s l).shutdownFlag = false ∧
        (submitAll proc (some B) s l).timerActive = s.timerActive := by
  intro n
  induction n using Nat.strong_induction_on with
  | _ n ih =>
    intro l hl s hq hflag
    by_cases hsmall : l.length < B
    · have hdiv : l.length / B = 0 := Nat.div_eq_of_lt hsmall
      have hlen0 : s.jobQueue.length + l.length < B := by rw [hq]; simpa using hsmall
      obtain ⟨hq1, hc1, hn1, hf1, ht1⟩ := submitAll_under_size proc B l s hflag hlen0
      refine ⟨[], by simp [hc1], by simp [hdiv], ?_, ?_, hn1, hf1, ht1⟩
      · intro i hi
        rw [hdiv] at hi
        exact absurd hi (Nat.not_lt_zero i)
      · rw [hq1, hq, hdiv, List.nil_append]
        simp
    · push_neg at hsmall
      have hsplit : l = l.take B ++ l.drop B := (List.take_append_drop B l).symm
      have htake_len : (l.take B).length = B := by rw [List.length_take]; omega
      have hdrop_len : (l.drop B).length = l.length - B := List.length_drop B l
      obtain ⟨hq1, hc1, hn1, hf1, ht1⟩ :=
        submitAll_exact_fill proc B hB (l.take B) htake_len s hq hflag
      have happ : submitAll proc (some B) s l
          = submitAll proc (some B) (submitAll proc (some B) s (l.take B)) (l.drop B) := by
        conv_lhs => rw [hsplit]
        rw [submitAll_append_eq]
      have hlt : (l.drop B).length < n := by
        rw [hdrop_len]
        omega
      obtain ⟨C2, hc2, hlen2, hget2, hq2, hn2, hf2, ht2⟩ :=
        ih (l.drop B).length hlt (l.drop B) rfl (submitAll proc (some B) s (l.take B)) hq1 hf1
      have hdiv : l.length / B = (l.drop B).length / B + 1 := by
        rw [hdrop_len]
        rw [Nat.div_eq_sub_div (by omega) hsmall]
      refine ⟨l.take B :: C2, ?_, ?_, ?_, ?_, ?_, ?_, ?_⟩
      · rw [happ, hc2, hc1]
        simp [List.append_assoc]
      · simp only [List.length_cons, hlen2, hdiv]
      · intro i hi
        cases i with
        | zero =>
          simp [List.getD_cons_zero]
        | succ k =>
          have hk : k < (l.drop B).length / B := by
            rw [hdiv] at hi
            omega
          rw [List.getD_cons_succ, hget2 k hk, List.drop_drop]
          have harith : B + k * B = (k + 1) * B := by
            rw [Nat.succ_mul]
            omega
          rw [harith]
      · rw [happ, hq2, hn1, hdiv, Nat.mul_succ]
        have h1 : s.nextId + B + B * ((l.drop B).length / B)
            = s.nextId + (B * ((l.drop B).length / B) + B) := by omega
        rw [h1, List.drop_drop]
        have h2 : B * ((l.drop B).length / B) + B = B + B * ((l.drop B).length / B) := by omega
        rw [h2]
      · rw [happ, hn2, hn1, hdrop_len]
        omega
      · rw [happ]
        exact hf2
      · rw [happ, ht2, ht1]

/-! ### Projections of a dispatching step, and shutdown on short queues -/

theorem processBatch_futures_eq (proc : List α → List (Outcome ρ ε)) (bs : Option Nat)
    (s : BatcherState α ρ ε) (hne : s.jobQueue ≠ []) :
    (processBatch proc bs s).futures
      = settleResults (extractBatch bs s.jobQueue)
          (proc ((extractBatch bs s.jobQueue).map Prod.snd)) s.futures := by
  have hempty : s.jobQueue.isEmpty = false := by
    cases h : s.jobQueue with
    | nil => exact absurd h hne
    | cons x xs => rfl
  simp [processBatch, hempty]

theorem processBatch_jobQueue_eq (proc : List α → List (Outcome ρ ε)) (bs : Option Nat)
    (s : BatcherState α ρ ε) (hne : s.jobQueue ≠ []) :
    (processBatch proc bs s).jobQueue = extractRest bs s.jobQueue := by
  have hempty : s.jobQueue.isEmpty = false := by
    cases h : s.jobQueue with
    | nil => exact absurd h hne
    | cons x xs => rfl
  simp [processBatch, hempty]

theorem processBatch_calls_eq (proc : List α → List (Outcome ρ ε)) (bs : Option Nat)
    (s : BatcherState α ρ ε) (hne : s.jobQueue ≠ []) :
    (processBatch proc bs s).processorCalls
      = s.processorCalls ++ [(extractBatch bs s.jobQueue).map Prod.snd] := by
  have hempty : s.jobQueue.isEmpty = false := by
    cases h : s.jobQueue with
    | nil => exact absurd h hne
    | cons x xs => rfl
  simp [processBatch, hempty]

theorem extractBatch_nodup (bs : Option Nat) (q : List (Nat × α))
    (h : (q.map Prod.fst).Nodup) : ((extractBatch bs q).map Prod.fst).Nodup := by
  cases bs with
  | none => exact h
  | some b =>
    simp only [extractBatch]
    rw [List.map_take]
    exact h.sublist (List.take_sublist b _)

/-- Shutting down with an empty queue only sets the flag and releases the
timer. -/
theorem shutdown_empty_queue (proc : List α → List (Outcome ρ ε)) (bs : Option Nat)
    (s : BatcherState α ρ ε) (hq : s.jobQueue = []) :
    shutdown proc bs s
      = ({ s with shutdownFlag := true, timerActive := false } : BatcherState α ρ ε) := by
  unfold shutdown
  exact processAllBatches_of_empty proc bs _ _ hq

/-- One pass of the drain loop over a queue that fits in a single batch:
with at least one unit of fuel the loop cuts one batch and stops. -/
theorem processAllBatches_small_queue (proc : List α → List (Outcome ρ ε)) (B : Nat)
    (fuel : Nat) (s : BatcherState α ρ ε)
    (hne : s.jobQueue ≠ []) (hle : s.jobQueue.length ≤ B) (hfuel : 1 ≤ fuel) :
    (processAllBatches proc (some B) fuel s).processorCalls
      = s.processorCalls ++ [s.jobQueue.map Prod.snd] ∧
    (processAllBatches proc (some B) fuel s).jobQueue = [] := by
  cases fuel with
  | zero => omega
  | succ f =>
    have hnonempty : s.jobQueue.isEmpty = false := by
      cases h : s.jobQueue with
      | nil => exact absurd h hne
      | cons x xs => rfl
    have hpb := processBatch_small_queue proc B s hne hle
    simp only [processAllBatches, hnonempty, Bool.false_eq_true, if_false]
    rw [processAllBatches_of_empty proc (some B) f _ hpb.1]
    exact ⟨hpb.2, hpb.1⟩

/-- Shutting down with a non-empty queue of at most the configured size cuts
exactly one final batch containing the whole queue. -/
theorem shutdown_small_queue (proc : List α → List (Outcome ρ ε)) (B : Nat)
    (s : BatcherState α ρ ε) (hne : s.jobQueue ≠ []) (hle : s.jobQueue.length ≤ B) :
    (shutdown proc (some B) s).processorCalls
      = s.processorCalls ++ [s.jobQueue.map Prod.snd] ∧
    (shutdown proc (some B) s).jobQueue = [] := by
  unfold shutdown
  exact processAllBatches_small_queue proc B _ _ hne hle (List.length_pos.mpr hne)

/-- A record whose flag is already raised and timer already released is a
fixed point of raising and releasing them. -/
theorem set_flags_eq_self (s : BatcherState α ρ ε)
    (hflag : s.shutdownFlag = true) (htimer : s.timerActive = false) :
    ({ s with shutdownFlag := true, timerActive := false } : BatcherState α ρ ε) = s := by
  cases s
  simp_all

/-- `⌈N/B⌉` via `(N + B - 1) / B`: the exact-multiple case. -/
theorem ceil_div_of_exact (N B : Nat) (hB : 1 ≤ B) (hm : N % B = 0) :
    (N + B - 1) / B = N / B := by
  have hdm := Nat.div_add_mod N B
  have h1 : N + B - 1 = (B - 1) + B * (N / B) := by omega
  rw [h1, Nat.add_mul_div_left _ _ (show 0 < B by omega),
    Nat.div_eq_of_lt (show B - 1 < B by omega)]
  omega

/-- `⌈N/B⌉` via `(N + B - 1) / B`: the case with a remainder. -/
theorem ceil_div_of_rem (N B : Nat) (hB : 1 ≤ B) (hm : N % B ≠ 0) :
    (N + B - 1) / B = N / B + 1 := by
  have hdm := Nat.div_add_mod N B
  have hmlt : N % B < B := Nat.mod_lt N (by omega)
  have hmul : B * (N / B + 1) = B * (N / B) + B := Nat.mul_succ B (N / B)
  have h1 : N + B - 1 = (N % B - 1) + B * (N / B + 1) := by omega
  rw [h1, Nat.add_mul_div_left _ _ (show 0 < B by omega),
    Nat.div_eq_of_lt (show N % B - 1 < B by omega)]
  omega

/-- The no-progress step of a size-0 configuration: `splice(0, 0)` removes
nothing, so the queue survives `processBatch` unchanged. -/
theorem processBatch_size_zero (proc : List α → List (Outcome ρ ε))
    (s : BatcherState α ρ ε) :
    (processBatch proc (some 0) s).jobQueue = s.jobQueue := by
  by_cases hq : s.jobQueue.isEmpty
  · simp [processBatch, hq]
  · simp [processBatch, hq, extractRest]

/-- With a size-0 configuration, no amount of drain-loop iterations changes
the queue: the source `while` loop makes no progress and never exits. -/
theorem processAllBatches_size_zero (proc : List α → List (Outcome ρ ε)) :
    ∀ (fuel : Nat) (s : BatcherState α ρ ε),
      (processAllBatches proc (some 0) fuel s).jobQueue = s.jobQueue := by
  intro fuel
  induction fuel with
  | zero => intro s; rfl
  | succ n ih =>
    intro s
    by_cases hq : s.jobQueue.isEmpty
    · simp [processAllBatches, hq]
    · simp only [processAllBatches]
      rw [if_neg hq, ih, processBatch_size_zero]

/-! ### Concrete processors and states used in the closed checks -/

/-- Processor fulfilling every job with its own value. -/
def okProc : List Nat → List (Outcome Nat Nat) := fun l => l.map Outcome.ok

theorem okProc_length : ∀ l, (okProc l).length = l.length := by
  intro l
  simp [okProc]

/-- Processor failing job `11` with reason `99` and fulfilling the rest. -/
def mixProc : List Nat → List (Outcome Nat Nat) :=
  fun l => l.map fun x => if x = 11 then Outcome.err 99 else Outcome.ok x

/-- Processor returning one more outcome than it was given jobs. -/
def surplusProc : List Nat → List (Outcome Nat Nat) :=
  fun l => l.map Outcome.ok ++ [Outcome.ok 0]

/-- A running state with two distinct queued jobs and a live timer. -/
def stateTwo : BatcherState Nat Nat Nat :=
  { jobQueue := [(0, 10), (1, 11)]
    futures := fun _ => FutureState.pending
    nextId := 2
    shutdownFlag := false
    timerActive := true
    processorCalls := [] }

/-! ### Claim C1 -/

/-- C1 (counterexample): with `batchSize = 0` the configured size is not
floor-clamped to 1.  Submitting one job does trigger batch formation, but
`splice(0, 0)` extracts an empty batch: the processor is invoked with `[]`
rather than with the submitted job, the job stays queued, and its future
stays pending instead of settling with its outcome. -/
theorem C1_counterexample :
    (submit okProc (some 0) (initState true) 42).2.processorCalls = [[]] ∧
    (submit okProc (some 0) (initState true) 42).2.processorCalls ≠ [[42]] ∧
    (submit okProc (some 0) (initState true) 42).2.jobQueue = [(0, 42)] ∧
    (submit okProc (some 0) (initState true) 42).2.futures 0 = FutureState.pending := by
  refine ⟨?_, ?_, ?_, ?_⟩ <;> decide

/-- C1 (amended): with the degenerate configured size 0, every submission
still triggers batch formation synchronously, but the cut batch is empty:
the processor is invoked with the empty array, the submitted job stays in
the queue, and its future remains pending — the size is not clamped to 1 and
the job's future never settles from this trigger. -/
theorem C1_size_zero_submits_empty_batch (proc : List α → List (Outcome ρ ε))
    (s : BatcherState α ρ ε) (j : α) (hflag : s.shutdownFlag = false) :
    (submit proc (some 0) s j).1 = SubmitOutcome.queued s.nextId ∧
    (submit proc (some 0) s j).2.processorCalls = s.processorCalls ++ [[]] ∧
    (submit proc (some 0) s j).2.jobQueue = s.jobQueue ++ [(s.nextId, j)] ∧
    (submit proc (some 0) s j).2.futures s.nextId = FutureState.pending := by
  have hempty : (s.jobQueue ++ [(s.nextId, j)]).isEmpty = false := by
    cases h : s.jobQueue ++ [(s.nextId, j)] with
    | nil => exact absurd h (by simp)
    | cons x xs => rfl
  refine ⟨?_, ?_, ?_, ?_⟩ <;>
    simp [submit, hflag, processBatch, hempty, extractBatch, extractRest, settleResults]

/-- C1 amended-claim check at a concrete input. -/
theorem C1_size_zero_submits_empty_batch_witness :
    (initState true : BatcherState Nat Nat Nat).shutdownFlag = false ∧
    (submit okProc (some 0) (initState true) 42).2.processorCalls
      = (initState true : BatcherState Nat Nat Nat).processorCalls ++ [[]] :=
  ⟨rfl, (C1_size_zero_submits_empty_batch okProc (initState true) 42 rfl).2.1⟩

/-! ### Claim C4 -/

/-- C4: a submission made after the shutdown flag is set returns the
immediately rejected future carrying the shutdown error message, and leaves
the engine state — queue, futures, processor-call log — completely
unchanged, so the processor is never invoked for that job. -/
theorem C4_submit_after_shutdown_rejects (proc : List α → List (Outcome ρ ε))
    (bs : Option Nat) (s : BatcherState α ρ ε) (j : α)
    (hflag : s.shutdownFlag = true) :
    submit proc bs s j = (SubmitOutcome.rejectedShutdown shutdownMessage, s) := by
  simp [submit, hflag]

/-- C4 check at a concrete input: a shutdown engine refuses a job. -/
theorem C4_witness :
    (shutdown okProc (some 2) (initState true) : BatcherState Nat Nat Nat).shutdownFlag
      = true ∧
    submit okProc (some 2) (shutdown okProc (some 2) (initState true)) 9
      = (SubmitOutcome.rejectedShutdown shutdownMessage,
          shutdown okProc (some 2) (initState true)) :=
  ⟨by decide, C4_submit_after_shutdown_rejects okProc (some 2) _ 9 (by decide)⟩

/-! ### Claim C7 -/

/-- C7: with an empty queue, batch formation is a no-op — the processor is
not invoked and the state is unchanged — whether the firing comes from the
timer (`processBatch`) or from shutdown; shutting down with an empty queue
only raises the flag and releases the timer, invoking the processor for
nothing. -/
theorem C7_empty_queue_noop (proc : List α → List (Outcome ρ ε)) (bs : Option Nat)
    (s : BatcherState α ρ ε) (hq : s.jobQueue = []) :
    processBatch proc bs s = s ∧
    shutdown proc bs s
      = ({ s with shutdownFlag := true, timerActive := false } : BatcherState α ρ ε) ∧
    (shutdown proc bs s).processorCalls = s.processorCalls := by
  refine ⟨processBatch_of_empty proc bs s hq, shutdown_empty_queue proc bs s hq, ?_⟩
  rw [shutdown_empty_queue proc bs s hq]

/-- C7 check at a concrete input. -/
theorem C7_witness :
    (initState true : BatcherState Nat Nat Nat).jobQueue = [] ∧
    (shutdown okProc (some 3) (initState true)).processorCalls
      = (initState true : BatcherState Nat Nat Nat).processorCalls :=
  ⟨rfl, (C7_empty_queue_noop okProc (some 3) (initState true) rfl).2.2⟩

/-! ### Claim C8 -/

/-- C8: with no size limit configured, a timer tick on a non-empty queue
invokes the processor exactly once, with the entire queued job sequence in
submission order, and leaves the queue empty. -/
theorem C8_timer_takes_whole_queue (proc : List α → List (Outcome ρ ε))
    (s : BatcherState α ρ ε) (hne : s.jobQueue ≠ []) (ht : s.timerActive = true) :
    (processBatch proc none s).processorCalls
      = s.processorCalls ++ [s.jobQueue.map Prod.snd] ∧
    (processBatch proc none s).jobQueue = [] := by
  refine ⟨?_, ?_⟩
  · rw [processBatch_calls_eq proc none s hne]
    rfl
  · rw [processBatch_jobQueue_eq proc none s hne]
    rfl

/-- C8 check at a concrete input. -/
theorem C8_witness :
    stateTwo.jobQueue ≠ [] ∧
    (processBatch okProc none stateTwo).processorCalls
      = stateTwo.processorCalls ++ [stateTwo.jobQueue.map Prod.snd] :=
  ⟨by decide, (C8_timer_takes_whole_queue okProc stateTwo (by decide) rfl).1⟩

/-! ### Claim C10 -/

/-- C10: the shutdown drain loop makes strict progress — and hence
terminates with an empty queue within one iteration per queued element —
whenever the configured size is absent or at least 1; that precondition is
necessary: with the degenerate size 0 each iteration removes nothing, so the
queue of a non-empty engine survives any number of iterations unchanged and
the source loop never exits. -/
theorem C10_drain_terminates_iff_size_positive (proc : List α → List (Outcome ρ ε))
    (bs : Option Nat) (s : BatcherState α ρ ε) (fuel : Nat) :
    ((bs = none ∨ ∃ B, bs = some B ∧ 1 ≤ B) → s.jobQueue ≠ [] →
      (processBatch proc bs s).jobQueue.length < s.jobQueue.length ∧
      (processAllBatches proc bs s.jobQueue.length s).jobQueue = []) ∧
    (s.jobQueue ≠ [] →
      (processAllBatches proc (some 0) fuel s).jobQueue = s.jobQueue) := by
  constructor
  · intro hbs hne
    exact ⟨processBatch_length_lt proc bs s hbs hne,
      processAllBatches_empties proc bs hbs _ s (le_refl _)⟩
  · intro hne
    exact processAllBatches_size_zero proc fuel s

/-- C10 check at a concrete input. -/
theorem C10_witness :
    ((some 2 : Option Nat) = none ∨ ∃ B, (some 2 : Option Nat) = some B ∧ 1 ≤ B) ∧
    stateTwo.jobQueue ≠ [] ∧
    (processAllBatches okProc (some 2) stateTwo.jobQueue.length stateTwo).jobQueue = [] ∧
    (processAllBatches okProc (some 0) 5 stateTwo).jobQueue = stateTwo.jobQueue :=
  ⟨Or.inr ⟨2, rfl, by decide⟩, by decide,
   ((C10_drain_terminates_iff_size_positive okProc (some 2) stateTwo 5).1
      (Or.inr ⟨2, rfl, by decide⟩) (by decide)).2,
   (C10_drain_terminates_iff_size_positive okProc (some 2) stateTwo 5).2 (by decide)⟩

/-! ### Claim C5 -/

/-- C5: outcomes are delivered per position, independently: if the outcome
at position `i` of a dispatched batch is a failure, the future of the job at
position `i` — and it alone — is rejected with exactly that reason, while
every position whose outcome is a success has its future resolved with its
own value.  A failing position never affects a sibling's settlement, since
each position's future is determined solely by the outcome at its own
index. -/
theorem C5_sibling_outcomes_independent (proc : List α → List (Outcome ρ ε))
    (bs : Option Nat) (s : BatcherState α ρ ε)
    (hnodup : (s.jobQueue.map Prod.fst).Nodup) (hne : s.jobQueue ≠ []) :
    ∀ i p, (extractBatch bs s.jobQueue).get? i = some p →
      (∀ e, (proc ((extractBatch bs s.jobQueue).map Prod.snd)).get? i
          = some (Outcome.err e) →
        (processBatch proc bs s).futures p.1 = FutureState.rejected e) ∧
      (∀ v, (proc ((extractBatch bs s.jobQueue).map Prod.snd)).get? i
          = some (Outcome.ok v) →
        (processBatch proc bs s).futures p.1 = FutureState.resolved v) := by
  intro i p hp
  have hnb := extractBatch_nodup bs s.jobQueue hnodup
  rw [processBatch_futures_eq proc bs s hne]
  constructor
  · intro e he
    rw [settleResults_get (extractBatch bs s.jobQueue) _ s.futures hnb i p _ hp he]
    rfl
  · intro v hv
    rw [settleResults_get (extractBatch bs s.jobQueue) _ s.futures hnb i p _ hp hv]
    rfl

/-- C5 check at a concrete input: a two-job batch where the second job fails
settles the first future with its value and rejects only the second. -/
theorem C5_witness :
    (stateTwo.jobQueue.map Prod.fst).Nodup ∧
    (processBatch mixProc (some 2) stateTwo).futures 0 = FutureState.resolved 10 ∧
    (processBatch mixProc (some 2) stateTwo).futures 1 = FutureState.rejected 99 :=
  ⟨by decide,
   (C5_sibling_outcomes_independent mixProc (some 2) stateTwo (by decide) (by decide)
      0 (0, 10) (by decide)).2 10 (by decide),
   (C5_sibling_outcomes_independent mixProc (some 2) stateTwo (by decide) (by decide)
      1 (1, 11) (by decide)).1 99 (by decide)⟩

/-! ### Claim C9 -/

/-- C9 (implicit): if the processor returns more outcomes than the batch has
jobs, settlement is still safe: every batch position's future is settled
exactly once, from the outcome at its own index, while the surplus outcomes
are silently discarded — the per-index existence guard makes out-of-range
positions a no-op, so no other future and no remaining queue entry is
touched. -/
theorem C9_surplus_outcomes_discarded (proc : List α → List (Outcome ρ ε))
    (bs : Option Nat) (s : BatcherState α ρ ε)
    (hnodup : (s.jobQueue.map Prod.fst).Nodup) (hne : s.jobQueue ≠ [])
    (hlonger : (extractBatch bs s.jobQueue).length
      < (proc ((extractBatch bs s.jobQueue).map Prod.snd)).length) :
    (∀ i p, (extractBatch bs s.jobQueue).get? i = some p →
      ∃ r, (proc ((extractBatch bs s.jobQueue).map Prod.snd)).get? i = some r ∧
        (processBatch proc bs s).futures p.1 = settleOutcome r) ∧
    (∀ id, id ∉ (extractBatch bs s.jobQueue).map Prod.fst →
      (processBatch proc bs s).futures id = s.futures id) ∧
    (processBatch proc bs s).jobQueue = extractRest bs s.jobQueue := by
  have hnb := extractBatch_nodup bs s.jobQueue hnodup
  rw [processBatch_futures_eq proc bs s hne]
  refine ⟨?_, ?_, processBatch_jobQueue_eq proc bs s hne⟩
  · intro i p hp
    have hi : i < (extractBatch bs s.jobQueue).length := (List.get?_eq_some.mp hp).1
    have hir : i < (proc ((extractBatch bs s.jobQueue).map Prod.snd)).length := by omega
    exact ⟨(proc ((extractBatch bs s.jobQueue).map Prod.snd)).get ⟨i, hir⟩,
      List.get?_eq_get hir,
      settleResults_get _ _ s.futures hnb i p _ hp (List.get?_eq_get hir)⟩
  · intro id hid
    exact settleResults_not_mem _ _ s.futures id hid

/-- C9 check at a concrete input: a processor answering a two-job batch with
three outcomes settles both queued futures and leaves every other future
untouched. -/
theorem C9_witness :
    (extractBatch (some 2) stateTwo.jobQueue).length
      < (surplusProc ((extractBatch (some 2) stateTwo.jobQueue).map Prod.snd)).length ∧
    (processBatch surplusProc (some 2) stateTwo).futures 5 = stateTwo.futures 5 :=
  ⟨by decide,
   (C9_surplus_outcomes_discarded surplusProc (some 2) stateTwo (by decide) (by decide)
      (by decide)).2.1 5 (by decide)⟩

/-! ### Claim C6 -/

/-- C6: shutdown is idempotent — applying `shutdown` to an engine on which a
first `shutdown` has already completed returns the very same state: the
queue is already empty so no batch is cut and the processor is not
re-invoked, nothing is re-drained, and the terminal outcome is identical.
Stated away from the degenerate size-0 configuration, in which the first
shutdown's drain loop never terminates in the source. -/
theorem C6_shutdown_idempotent (proc : List α → List (Outcome ρ ε)) (bs : Option Nat)
    (s : BatcherState α ρ ε) (hbs : bs = none ∨ ∃ B, bs = some B ∧ 1 ≤ B) :
    shutdown proc bs (shutdown proc bs s) = shutdown proc bs s := by
  have hq : (shutdown proc bs s).jobQueue = [] := by
    unfold shutdown
    exact processAllBatches_empties proc bs hbs _ _ (le_refl _)
  have hflag : (shutdown proc bs s).shutdownFlag = true := by
    unfold shutdown
    rw [processAllBatches_shutdownFlag]
  have htimer : (shutdown proc bs s).timerActive = false := by
    unfold shutdown
    rw [processAllBatches_timerActive]
  rw [shutdown_empty_queue proc bs _ hq, set_flags_eq_self _ hflag htimer]

/-- C6 check at a concrete input. -/
theorem C6_witness :
    ((some 2 : Option Nat) = none ∨ ∃ B, (some 2 : Option Nat) = some B ∧ 1 ≤ B) ∧
    shutdown okProc (some 2) (shutdown okProc (some 2) (initState true))
      = shutdown okProc (some 2) (initState true) :=
  ⟨Or.inr ⟨2, rfl, by decide⟩,
   C6_shutdown_idempotent okProc (some 2) (initState true) (Or.inr ⟨2, rfl, by decide⟩)⟩

/-! ### Claim C3 -/

/-- C3: in the state in which shutdown's returned promise has resolved, the
queue has been fully drained (possibly in several batches) and every job
accepted before the shutdown call has a settled future: no previously
submitted job remains unresolved.  The hypotheses are the processor's
documented same-length contract and a non-degenerate size configuration
(with size 0 the drain loop never finishes).  Batches in flight at shutdown
time are settled at dispatch in this embedding, so their jobs are covered by
the settledness of every issued id. -/
theorem C3_shutdown_resolves_after_all_settled (proc : List α → List (Outcome ρ ε))
    (bs : Option Nat) (t0 : Bool) (s : BatcherState α ρ ε)
    (hproc : ∀ l, (proc l).length = l.length)
    (hbs : bs = none ∨ ∃ B, bs = some B ∧ 1 ≤ B)
    (hs : Reachable proc bs t0 s) :
    (shutdown proc bs s).jobQueue = [] ∧
    ∀ id, id < s.nextId → (shutdown proc bs s).futures id ≠ FutureState.pending := by
  have hempty : (shutdown proc bs s).jobQueue = [] := by
    unfold shutdown
    exact processAllBatches_empties proc bs hbs _ _ (le_refl _)
  refine ⟨hempty, ?_⟩
  intro id hid
  have htr : AllTracked (shutdown proc bs s) :=
    shutdown_tracked proc bs s hproc (reachable_tracked proc bs t0 s hproc hs)
  have hnid : (shutdown proc bs s).nextId = s.nextId := by
    unfold shutdown
    rw [processAllBatches_nextId]
  rcases htr id (by rw [hnid]; exact hid) with ⟨j, hj⟩ | hset
  · rw [hempty] at hj
    exact absurd hj (List.not_mem_nil _)
  · exact hset

/-- C3 check at a concrete input: one job submitted into a size-2 engine is
settled once shutdown has returned. -/
theorem C3_witness :
    (∀ l, (okProc l).length = l.length) ∧
    (shutdown okProc (some 2) (submit okProc (some 2) (initState true) 7).2).futures 0
      ≠ FutureState.pending :=
  ⟨okProc_length,
   (C3_shutdown_resolves_after_all_settled okProc (some 2) true
      (submit okProc (some 2) (initState true) 7).2 okProc_length
      (Or.inr ⟨2, rfl, by decide⟩)
      (Reachable.submitStep 7 Reachable.init)).2 0 (by decide)⟩

/-! ### Claim C2 -/

/-- C2 (counterexample): after 3 submissions with batch size 2 and no timer
firing, the processor has been invoked once — `⌊3/2⌋`, not `⌈3/2⌉ = 2` as
claimed; the third job is still queued, awaiting a later trigger or the
shutdown drain. -/
theorem C2_counterexample :
    (submitAll okProc (some 2) (initState true) [10, 11, 12]).processorCalls.length
      ≠ (3 + 2 - 1) / 2 ∧
    (submitAll okProc (some 2) (initState true) [10, 11, 12]).processorCalls
      = [[10, 11]] ∧
    (submitAll okProc (some 2) (initState true) [10, 11, 12]).jobQueue.map Prod.snd
      = [12] := by
  refine ⟨?_, ?_, ?_⟩ <;> decide

/-- C2 (amended): for `N` submissions with configured size `B`, `1 ≤ B < N`,
and no timer firing in between, the submissions themselves invoke the
processor exactly `⌊N/B⌋` times, the `i`-th invocation receiving exactly the
contiguous slice of jobs at submission positions `i·B … i·B+B-1`; the
remaining `N mod B` jobs stay queued in submission order, and the subsequent
shutdown drain dispatches them as one final shorter batch, bringing the
total to `⌈N/B⌉` invocations whose `i`-th argument is exactly
`(jobs.drop (i·B)).take B` — each batch a contiguous, order-preserving slice
of the submitted sequence, the last possibly shorter than `B`. -/
theorem C2_contiguous_slices (proc : List α → List (Outcome ρ ε)) (B : Nat) (t0 : Bool)
    (jobs : List α) (hB : 1 ≤ B) (hBN : B < jobs.length) :
    ((submitAll proc (some B) (initState t0) jobs).processorCalls.length
        = jobs.length / B) ∧
    (∀ i, i < jobs.length / B →
      (submitAll proc (some B) (initState t0) jobs).processorCalls.getD i []
        = (jobs.drop (i * B)).take B) ∧
    ((submitAll proc (some B) (initState t0) jobs).jobQueue.map Prod.snd
        = jobs.drop (B * (jobs.length / B))) ∧
    ((shutdown proc (some B)
        (submitAll proc (some B) (initState t0) jobs)).processorCalls.length
        = (jobs.length + B - 1) / B) ∧
    (∀ i, i < (jobs.length + B - 1) / B →
      (shutdown proc (some B)
          (submitAll proc (some B) (initState t0) jobs)).processorCalls.getD i []
        = (jobs.drop (i * B)).take B) := by
  obtain ⟨C, hc, hlenC, hget, hqueue, hnid, hfl, htm⟩ :=
    submitAll_structure proc B hB jobs.length jobs rfl (initState t0) rfl rfl
  have hc0 : (submitAll proc (some B) (initState t0) jobs).processorCalls = C := by
    rw [hc]
    rfl
  have hdm := Nat.div_add_mod jobs.length B
  have hql : (submitAll proc (some B) (initState t0) jobs).jobQueue.length
      = jobs.length % B := by
    rw [hqueue, tagFrom_length, List.length_drop]
    omega
  have hqsnd : (submitAll proc (some B) (initState t0) jobs).jobQueue.map Prod.snd
      = jobs.drop (B * (jobs.length / B)) := by
    rw [hqueue, tagFrom_map_snd]
  have hshut : (shutdown proc (some B)
      (submitAll proc (some B) (initState t0) jobs)).processorCalls
      = C ++ (if jobs.length % B = 0 then []
              else [jobs.drop (B * (jobs.length / B))]) := by
    by_cases hm : jobs.length % B = 0
    · have hqnil : (submitAll proc (some B) (initState t0) jobs).jobQueue = [] := by
        apply List.eq_nil_of_length_eq_zero
        rw [hql, hm]
      rw [shutdown_empty_queue proc (some B) _ hqnil]
      simp only [hm, if_true]
      rw [List.append_nil]
      exact hc0
    · have hqne : (submitAll proc (some B) (initState t0) jobs).jobQueue ≠ [] := by
        intro h
        rw [h] at hql
        simp only [List.length_nil] at hql
        omega
      have hqle : (submitAll proc (some B) (initState t0) jobs).jobQueue.length ≤ B := by
        rw [hql]
        have := Nat.mod_lt jobs.length (show 0 < B by omega)
        omega
      obtain ⟨hcalls2, hq2⟩ := shutdown_small_queue proc B _ hqne hqle
      rw [hcalls2, hc0, hqsnd]
      simp [hm]
  have hceil : (jobs.length + B - 1) / B
      = jobs.length / B + (if jobs.length % B = 0 then 0 else 1) := by
    by_cases hm : jobs.length % B = 0
    · simp only [hm, if_true]
      rw [ceil_div_of_exact jobs.length B hB hm]
      omega
    · simp only [hm, if_false]
      exact ceil_div_of_rem jobs.length B hB hm
  refine ⟨by rw [hc0, hlenC], ?_, hqsnd, ?_, ?_⟩
  · intro i hi
    rw [hc0]
    exact hget i hi
  · rw [hshut, List.length_append, hlenC, hceil]
    by_cases hm : jobs.length % B = 0
    · rw [if_pos hm, if_pos hm]
      simp
    · rw [if_neg hm, if_neg hm]
      simp
  · intro i hi
    rw [hceil] at hi
    rw [hshut]
    by_cases hm : jobs.length % B = 0
    · simp only [hm, if_true, List.append_nil]
      simp only [hm, if_true] at hi
      exact hget i (by omega)
    · simp only [hm, if_false] at hi ⊢
      by_cases hiC : i < jobs.length / B
      · rw [List.getD_append _ _ _ _ (by rw [hlenC]; omega)]
        exact hget i hiC
      · have hieq : i = jobs.length / B := by omega
        subst hieq
        rw [List.getD_append_right _ _ _ _ (by rw [hlenC])]
        rw [hlenC, Nat.sub_self]
        have hrem : (jobs.drop (B * (jobs.length / B))).length ≤ B := by
          rw [List.length_drop]
          have := Nat.mod_lt jobs.length (show 0 < B by omega)
          omega
        rw [List.getD_cons_zero]
        rw [Nat.mul_comm, List.take_of_length_le]
        rw [Nat.mul_comm]
        exact hrem

/-- C2 amended-claim check at a concrete input. -/
theorem C2_witness :
    1 ≤ 2 ∧ 2 < ([10, 11, 12] : List Nat).length ∧
    (submitAll okProc (some 2) (initState true) [10, 11, 12]).processorCalls.length
      = ([10, 11, 12] : List Nat).length / 2 ∧
    (shutdown okProc (some 2)
        (submitAll okProc (some 2) (initState true) [10, 11, 12])).processorCalls.length
      = (([10, 11, 12] : List Nat).length + 2 - 1) / 2 :=
  ⟨by decide, by decide,
   (C2_contiguous_slices okProc 2 true [10, 11, 12] (by decide) (by decide)).1,
   (C2_contiguous_slices okProc 2 true [10, 11, 12] (by decide) (by decide)).2.2.2.1⟩

end MicroBatcher
